import Mathlib

/-!
Shallow embedding of the core logic of the swagger-spec-validator package
(current revision, v5.0.0): the CLI batch validator (`validateAll` /
`onResult` in cli.js), target-list deduplication, the HTTP response
classification of `requestJson` (index.js), the `callbackOnce` latch,
content-type resolution (`guessSpecContentType` / `guessSpecDataContentType`)
and the `combineHeaders` merge.

Streams are modelled as event lists (each `write` call appends one string),
verbosity as an unbounded `Int`, the JSON parser of the runtime as an
explicit function argument, and JavaScript objects used as header maps as
association lists in key-insertion order.
-/

/-- Entry of `result.schemaValidationMessages` in the validator response:
an object with `level` and `message` string properties. -/
structure SchemaMessage where
  level : String
  message : String

/-- Parsed JSON validation response shape used by the CLI (`getMessages`):
an optional `messages` list and an optional `schemaValidationMessages` list.
`none` models an absent (undefined) property. -/
structure ValidationResult where
  messages : Option (List String)
  schemaValidationMessages : Option (List SchemaMessage)

/-- Error value delivered to a per-target callback: `display` is its
JavaScript string conversion (as interpolated by `` `${err}` ``),
`stack` its `err.stack` property. -/
structure ErrInfo where
  display : String
  stack : String

/-- Outcome delivered to `onResult` for one target: `callback(err)` or
`callback(null, result)`. -/
inductive TargetOutcome where
  | error (e : ErrInfo)
  | success (r : ValidationResult)

/-- Translation of `getMessages` from cli.js: concatenates `result.messages`
with `schemaValidationMessages` rendered as `"<level>: <message>"`. -/
def getMessages (result : ValidationResult) : List String :=
  let messages : List String := []
  let messages :=
    match result.messages with
    | some ms => messages ++ ms
    | none => messages
  match result.schemaValidationMessages with
  | some sms => messages ++ sms.map (fun m => m.level ++ ": " ++ m.message)
  | none => messages

/-- State of one `validateAll` batch: the mutable locals of `validateAll`
(`hadError`, `hadInvalid`, `numValidated`) plus the observable events:
writes to `options.stderr`, writes to `options.stdout`, and invocations of
the completion callback (first argument, exit code). -/
structure BatchState where
  hadError : Bool
  hadInvalid : Bool
  numValidated : Nat
  errWrites : List String
  outWrites : List String
  callbackCalls : List (Option String × Nat)

/-- State of `validateAll` before any target completes. -/
def initialBatchState : BatchState :=
  { hadError := false
    hadInvalid := false
    numValidated := 0
    errWrites := []
    outWrites := []
    callbackCalls := [] }

/-- First phase of `onResult` in cli.js: route one target's outcome
(set `hadError` / `hadInvalid`, write per-target diagnostics). -/
def routeOutcome (verbosity : Int) (specPath : String) (oc : TargetOutcome)
    (s : BatchState) : BatchState :=
  match oc with
  | .error e =>
      let s1 := { s with hadError := true }
      if -1 ≤ verbosity then
        let s2 :=
          { s1 with errWrites :=
              s1.errWrites ++ [specPath ++ ": " ++ e.display ++ "\n"] }
        if 1 ≤ verbosity then
          { s2 with errWrites := s2.errWrites ++ [e.stack] }
        else s2
      else s1
  | .success r =>
      let messages := getMessages r
      if 0 < messages.length then
        let s1 := { s with hadInvalid := true }
        if 0 ≤ verbosity then
          let messagesWithPath := messages.map (fun m => specPath ++ ": " ++ m)
          { s1 with outWrites :=
              s1.outWrites ++ [String.intercalate "\n" messagesWithPath ++ "\n"] }
        else s1
      else s

/-- Second phase of `onResult` in cli.js: increment `numValidated` and, when
it reaches the number of targets, write the confirmation line (when clean
and `verbosity >= 0`) and invoke the completion callback with
`(undefined, hadError ? 2 : hadInvalid ? 1 : 0)`. -/
def finishStep (verbosity : Int) (total : Nat) (s : BatchState) : BatchState :=
  let s := { s with numValidated := s.numValidated + 1 }
  if s.numValidated = total then
    let s :=
      if !s.hadError && !s.hadInvalid && 0 ≤ verbosity then
        { s with errWrites := s.errWrites ++ ["All OpenAPI/Swagger specs are valid.\n"] }
      else s
    { s with callbackCalls :=
        s.callbackCalls ++ [(none, if s.hadError then 2 else if s.hadInvalid then 1 else 0)] }
  else s

/-- The `onResult` closure of `validateAll` for one target completion. -/
def onResult (verbosity : Int) (total : Nat) (specPath : String)
    (oc : TargetOutcome) (s : BatchState) : BatchState :=
  finishStep verbosity total (routeOutcome verbosity specPath oc s)

/-- Run a sequence of target completions (in arrival order) through
`onResult`, starting from state `s`. -/
def runSteps (verbosity : Int) (total : Nat)
    (completions : List (String × TargetOutcome)) (s : BatchState) : BatchState :=
  completions.foldl (fun st c => onResult verbosity total c.1 c.2 st) s

/-- Observable behavior of `validateAll specPaths options callback` when the
targets complete in the order given by `completions` (one entry per
dispatched target, `total = specPaths.length`). -/
def validateAll (verbosity : Int) (total : Nat)
    (completions : List (String × TargetOutcome)) : BatchState :=
  runSteps verbosity total completions initialBatchState

/-- Whether a target completion took the error branch of `onResult`. -/
def isErrorOutcome : TargetOutcome → Bool
  | .error _ => true
  | .success _ => false

/-- Whether a target completion took the invalid branch of `onResult`
(success with a non-empty combined message list). -/
def isInvalidOutcome : TargetOutcome → Bool
  | .error _ => false
  | .success r => 0 < (getMessages r).length

/-- Some completion in the batch errored. -/
def anyErrorIn (cs : List (String × TargetOutcome)) : Bool :=
  cs.any (fun c => isErrorOutcome c.2)

/-- Some completion in the batch was a success carrying diagnostics. -/
def anyInvalidIn (cs : List (String × TargetOutcome)) : Bool :=
  cs.any (fun c => isInvalidOutcome c.2)

/-- Dispatch performed by `validateAll` for one spec path: `'-'` validates
the standard-input stream, anything else the named file. -/
inductive DispatchTarget where
  | stdinSpec
  | fileSpec (path : String)

/-- The dispatch `validateAll` performs for one spec path. -/
def dispatchOf (specPath : String) : DispatchTarget :=
  if specPath = "-" then .stdinSpec else .fileSpec specPath

/-- All validations dispatched by `validateAll`, one per element of
`specPaths`, in order. -/
def dispatchAll (specPaths : List String) : List DispatchTarget :=
  specPaths.map dispatchOf

/-- Model of `[...new Set(l)]` in JavaScript: keep the first occurrence of
each element, preserving insertion order. -/
def jsSetDedup (l : List String) : List String :=
  l.foldl (fun acc x => if x ∈ acc then acc else acc ++ [x]) []

/-- Spec-path resolution in `swaggerSpecValidatorCmd` (cli.js): an empty
argument list defaults to stdin (`'-'`); a list of two or more paths is
deduplicated with `[...new Set(specPaths)]`; a single path is kept as-is. -/
def resolveSpecPaths (args : List String) : List String :=
  if args.length = 0 then ["-"]
  else if 1 < args.length then jsSetDedup args
  else args

/-- HTTP response as observed by the `end` handler in `requestJson`
(current index.js revision): status code, status message (empty string when
absent, matching the JavaScript falsiness test), the `location` response
header (empty string when absent), and the concatenated body bytes. -/
structure HttpResponse where
  statusCode : Nat
  statusMessage : String
  location : String
  body : String

/-- The `body` property attached to an error by `requestJson`: the parsed
JSON value when parsing succeeded, otherwise the raw body bytes. -/
inductive BodyField (α : Type) where
  | parsed (value : α)
  | raw (bytes : String)

/-- Error object built by `requestJson`: message plus the response metadata
copied onto it. -/
structure ResponseErr (α : Type) where
  message : String
  statusCode : Nat
  statusMessage : String
  location : String
  body : BodyField α

/-- Resolution of one `requestJson` call: `callback(null, resBodyObj)` or
`callback(err)`. -/
inductive RequestOutcome (α : Type) where
  | ok (result : α)
  | err (e : ResponseErr α)

/-- Translation of the response `end` handler of `requestJson` in the
current index.js revision.  `jsonParse` stands for the runtime
`JSON.parse` (`.error` carries the exception message).  A parse failure
produces a SyntaxError which is overwritten by the HTTP error when
`statusCode >= 300`; the HTTP error message is
`HTTP <status>[: <statusMessage>][: <location header>]`. -/
def requestJsonOnEnd {α : Type} (jsonParse : String → Except String α)
    (res : HttpResponse) : RequestOutcome α :=
  let parseRes := jsonParse res.body
  if 300 ≤ res.statusCode then
    let errMessage := "HTTP " ++ toString res.statusCode
    let errMessage :=
      if res.statusMessage ≠ "" then errMessage ++ ": " ++ res.statusMessage
      else errMessage
    let errMessage :=
      if res.location ≠ "" then errMessage ++ ": " ++ res.location
      else errMessage
    .err
      { message := errMessage
        statusCode := res.statusCode
        statusMessage := res.statusMessage
        location := res.location
        body :=
          match parseRes with
          | .ok j => .parsed j
          | .error _ => .raw res.body }
  else
    match parseRes with
    | .ok j => .ok j
    | .error m =>
        .err
          { message := "Error parsing server response as JSON: " ++ m
            statusCode := res.statusCode
            statusMessage := res.statusMessage
            location := res.location
            body := .raw res.body }

/-- One guarded resolution attempt through the `calledBack` latch of
`callbackOnce` in `validate`: if the latch is unset, set it and record the
invocation; otherwise drop the attempt. -/
def callbackOnceStep {α : Type} (st : Bool × List α) (a : α) : Bool × List α :=
  if st.1 then st else (true, st.2 ++ [a])

/-- Observable callback invocations when a chronological sequence of
resolution attempts (transport errors, body-stream errors, responses,
promise rejections) is routed through `callbackOnce`, starting with
`calledBack = false`. -/
def callbackOnceRun {α : Type} (attempts : List α) : List α :=
  (attempts.foldl callbackOnceStep (false, [])).2

/-- ASCII lowercasing, the model of JavaScript `String#toLowerCase()` as
applied to header names and file paths (computable by kernel reduction,
unlike `String.toLower`). -/
def jsToLower (s : String) : String := String.mk (s.data.map Char.toLower)

/-- Suffix test on strings, the model of an anchored regex match
`/suffix$/`. -/
def endsWithStr (s suffix : String) : Bool :=
  suffix.data.isSuffixOf s.data

/-- JSON Content-Type accepted by the validator service (index.js). -/
def JSON_CONTENT_TYPE : String := "application/json"

/-- YAML Content-Type accepted by the validator service (index.js). -/
def YAML_CONTENT_TYPE : String := "application/yaml"

/-- Diagnostic written by `guessSpecDataContentType` when sniffing falls
back to YAML. -/
def sniffDiagLine : String := "Unable to parse spec content as JSON.  Assuming YAML.\n"

/-- Diagnostic written by `guessSpecContentType` before buffering stream
content for sniffing. -/
def bufferDiagLine : String :=
  "Content-Type not specified and can\x27t be inferred from filename.\nReading spec content...\n"

/-- Translation of `guessSpecDataContentType` (index.js): try `JSON.parse`
on the content; on success `application/json`, on failure the YAML type,
writing one diagnostic to `options.err` when `verbosity >= 1`.  Returns the
content type and the list of error-stream writes. -/
def guessSpecDataContentType (jsonParses : String → Bool) (verbosity : Int)
    (spec : String) : String × List String :=
  if jsonParses spec then (JSON_CONTENT_TYPE, [])
  else (YAML_CONTENT_TYPE, if 1 ≤ verbosity then [sniffDiagLine] else [])

/-- Document handle passed to `validate`: in-memory content
(string or Uint8Array), or a readable stream whose `path` property is the
empty string when absent (JavaScript falsiness), with the content that
`getStreamData` would buffer. -/
inductive SpecHandle where
  | data (content : String)
  | stream (path : String) (content : String)

/-- Extension matching of `guessSpecContentType`: `/\.json$/i` gives the
JSON type, `/\.ya?ml$/i` the YAML type, otherwise no decision. -/
def extContentType (path : String) : Option String :=
  if endsWithStr (jsToLower path) ".json" then some JSON_CONTENT_TYPE
  else if endsWithStr (jsToLower path) ".yaml" || endsWithStr (jsToLower path) ".yml" then
    some YAML_CONTENT_TYPE
  else none

/-- Result of `guessSpecContentType`: the decided content type, the buffered
stream content returned to the caller when sniffing was required
(`specContent`), and the error-stream writes performed. -/
structure ContentGuess where
  contentType : String
  specContent : Option String
  errWrites : List String

/-- Translation of `guessSpecContentType` (index.js): in-memory content is
sniffed directly; a path-bearing stream is matched against the extension
patterns; otherwise the stream is buffered (after a diagnostic at
`verbosity >= 1`) and its content sniffed. -/
def guessSpecContentType (jsonParses : String → Bool) (verbosity : Int)
    (spec : SpecHandle) : ContentGuess :=
  match spec with
  | .data content =>
      let g := guessSpecDataContentType jsonParses verbosity content
      { contentType := g.1, specContent := none, errWrites := g.2 }
  | .stream path content =>
      match (if path ≠ "" then extContentType path else none) with
      | some ct => { contentType := ct, specContent := none, errWrites := [] }
      | none =>
          let w0 : List String := if 1 ≤ verbosity then [bufferDiagLine] else []
          let g := guessSpecDataContentType jsonParses verbosity content
          { contentType := g.1
            specContent := some content
            errWrites := w0 ++ g.2 }

/-- The Content-Type presence test in `validate` (index.js):
`Object.keys(reqOpts.headers).some((name) => name.toLowerCase() === 'content-type')`. -/
def hasContentTypeHeader (headers : List (String × String)) : Bool :=
  headers.any (fun kv => jsToLower kv.1 = "content-type")

/-- JavaScript property assignment `obj[key] = v` on an object modelled as
an association list in key-insertion order: overwrite in place when the key
(case-sensitively) exists, else append. -/
def jsSetKey (hs : List (String × String)) (key v : String) : List (String × String) :=
  if hs.any (fun kv => kv.1 = key) then
    hs.map (fun kv => if kv.1 = key then (kv.1, v) else kv)
  else hs ++ [(key, v)]

/-- Result of the content-resolution step of `validate`: final outbound
headers, final request body, and error-stream writes. -/
structure ContentResolution where
  headers : List (String × String)
  body : SpecHandle
  errWrites : List String

/-- Content-resolution step of `validate` (index.js): when no outbound
header already names Content-Type (case-insensitively), guess it with
`guessSpecContentType`, set `reqOpts.headers['Content-Type']` and replace
the body with the buffered content when sniffing read the stream; otherwise
leave everything untouched. -/
def resolveSpecContent (jsonParses : String → Bool) (verbosity : Int)
    (headers : List (String × String)) (spec : SpecHandle) : ContentResolution :=
  if !hasContentTypeHeader headers then
    let g := guessSpecContentType jsonParses verbosity spec
    { headers := jsSetKey headers "Content-Type" g.contentType
      body := match g.specContent with
              | some c => .data c
              | none => spec
      errWrites := g.errWrites }
  else
    { headers := headers, body := spec, errWrites := [] }

/-- Built-in default headers (index.js `DEFAULT_HEADERS`), parameterized by
the User-Agent string built from the package name, package version and
Node.js runtime version. -/
def defaultHeaders (userAgent : String) : List (String × String) :=
  [("Accept", JSON_CONTENT_TYPE), ("User-Agent", userAgent)]

/-- Inner step of `combineHeaders`: add one header entry unless its
lowercased name was already claimed. -/
def addHeaderEntry (st : List String × List (String × String))
    (kv : String × String) : List String × List (String × String) :=
  if jsToLower kv.1 ∈ st.1 then st
  else (st.1 ++ [jsToLower kv.1], st.2 ++ [kv])

/-- Translation of `combineHeaders` (index.js): reverse the layer list, then
for each layer in order and each of its keys in insertion order, keep the
entry unless its lowercase name was seen before.  Hence the last-passed
layer wins, with its literal capitalization and value. -/
def combineHeaders (args : List (List (String × String))) : List (String × String) :=
  ((args.reverse).foldl (fun st headers => headers.foldl addHeaderEntry st) ([], [])).2

/-- Case-insensitive lookup in an outbound header object: the first entry
whose lowercased name equals `l` (JavaScript object keys are unique
case-sensitively, so several entries may share a lowercase name). -/
def lookupCI (headers : List (String × String)) (l : String) : Option (String × String) :=
  headers.find? (fun kv => jsToLower kv.1 = l)

/-! Helper lemmas about the batch state machine. -/

theorem routeOutcome_numValidated (v : Int) (p : String) (oc : TargetOutcome)
    (s : BatchState) : (routeOutcome v p oc s).numValidated = s.numValidated := by
  cases oc <;> simp only [routeOutcome] <;> repeat first | split | rfl

theorem routeOutcome_callbackCalls (v : Int) (p : String) (oc : TargetOutcome)
    (s : BatchState) : (routeOutcome v p oc s).callbackCalls = s.callbackCalls := by
  cases oc <;> simp only [routeOutcome] <;> repeat first | split | rfl

theorem routeOutcome_hadError (v : Int) (p : String) (oc : TargetOutcome)
    (s : BatchState) :
    (routeOutcome v p oc s).hadError = (s.hadError || isErrorOutcome oc) := by
  cases oc <;> simp only [routeOutcome, isErrorOutcome] <;>
    repeat first | split | simp

theorem routeOutcome_hadInvalid (v : Int) (p : String) (oc : TargetOutcome)
    (s : BatchState) :
    (routeOutcome v p oc s).hadInvalid = (s.hadInvalid || isInvalidOutcome oc) := by
  cases oc with
  | error e =>
      simp only [routeOutcome, isInvalidOutcome]
      repeat first | split | simp
  | success r =>
      simp only [routeOutcome, isInvalidOutcome]
      split
      · split <;> simp_all
      · rename_i h
        simp [h]

theorem routeOutcome_clean (v : Int) (p : String) (oc : TargetOutcome)
    (s : BatchState) (h1 : isErrorOutcome oc = false)
    (h2 : isInvalidOutcome oc = false) : routeOutcome v p oc s = s := by
  cases oc with
  | error e => simp [isErrorOutcome] at h1
  | success r =>
      simp only [isInvalidOutcome, decide_eq_false_iff_not] at h2
      simp only [routeOutcome]
      rw [if_neg h2]

theorem finishStep_numValidated (v : Int) (t : Nat) (s : BatchState) :
    (finishStep v t s).numValidated = s.numValidated + 1 := by
  simp only [finishStep]
  repeat first | split | rfl

theorem finishStep_hadError (v : Int) (t : Nat) (s : BatchState) :
    (finishStep v t s).hadError = s.hadError := by
  simp only [finishStep]
  repeat first | split | rfl

theorem finishStep_hadInvalid (v : Int) (t : Nat) (s : BatchState) :
    (finishStep v t s).hadInvalid = s.hadInvalid := by
  simp only [finishStep]
  repeat first | split | rfl

theorem finishStep_noFire (v : Int) (t : Nat) (s : BatchState)
    (h : s.numValidated + 1 ≠ t) :
    finishStep v t s = { s with numValidated := s.numValidated + 1 } := by
  simp only [finishStep]
  rw [if_neg h]

theorem finishStep_fire_callbackCalls (v : Int) (t : Nat) (s : BatchState)
    (h : s.numValidated + 1 = t) :
    (finishStep v t s).callbackCalls =
      s.callbackCalls ++
        [(none, if s.hadError then 2 else if s.hadInvalid then 1 else 0)] := by
  simp only [finishStep]
  rw [if_pos h]
  repeat first | split | rfl

theorem finishStep_fire_errWrites (v : Int) (t : Nat) (s : BatchState)
    (h : s.numValidated + 1 = t) :
    (finishStep v t s).errWrites =
      s.errWrites ++
        (if !s.hadError && !s.hadInvalid && decide (0 ≤ v) then
          ["All OpenAPI/Swagger specs are valid.\n"] else []) := by
  simp only [finishStep]
  rw [if_pos h]
  split
  · rfl
  · simp

theorem finishStep_fire_outWrites (v : Int) (t : Nat) (s : BatchState)
    (h : s.numValidated + 1 = t) :
    (finishStep v t s).outWrites = s.outWrites := by
  simp only [finishStep]
  rw [if_pos h]
  repeat first | split | rfl

theorem runSteps_nil (v : Int) (t : Nat) (s : BatchState) :
    runSteps v t [] s = s := rfl

theorem runSteps_cons (v : Int) (t : Nat) (c : String × TargetOutcome)
    (cs : List (String × TargetOutcome)) (s : BatchState) :
    runSteps v t (c :: cs) s = runSteps v t cs (onResult v t c.1 c.2 s) := rfl

theorem runSteps_append (v : Int) (t : Nat)
    (cs ds : List (String × TargetOutcome)) (s : BatchState) :
    runSteps v t (cs ++ ds) s = runSteps v t ds (runSteps v t cs s) := by
  simp [runSteps, List.foldl_append]

theorem runSteps_numValidated (v : Int) (t : Nat)
    (cs : List (String × TargetOutcome)) (s : BatchState) :
    (runSteps v t cs s).numValidated = s.numValidated + cs.length := by
  induction cs generalizing s with
  | nil => simp [runSteps]
  | cons c cs ih =>
      rw [runSteps_cons, ih]
      simp only [onResult, finishStep_numValidated, routeOutcome_numValidated,
        List.length_cons]
      omega

theorem runSteps_hadError (v : Int) (t : Nat)
    (cs : List (String × TargetOutcome)) (s : BatchState) :
    (runSteps v t cs s).hadError = (s.hadError || anyErrorIn cs) := by
  induction cs generalizing s with
  | nil => simp [runSteps, anyErrorIn]
  | cons c cs ih =>
      rw [runSteps_cons, ih]
      simp only [onResult, finishStep_hadError, routeOutcome_hadError, anyErrorIn,
        List.any_cons]
      simp [Bool.or_assoc]

theorem runSteps_hadInvalid (v : Int) (t : Nat)
    (cs : List (String × TargetOutcome)) (s : BatchState) :
    (runSteps v t cs s).hadInvalid = (s.hadInvalid || anyInvalidIn cs) := by
  induction cs generalizing s with
  | nil => simp [runSteps, anyInvalidIn]
  | cons c cs ih =>
      rw [runSteps_cons, ih]
      simp only [onResult, finishStep_hadInvalid, routeOutcome_hadInvalid, anyInvalidIn,
        List.any_cons]
      simp [Bool.or_assoc]

theorem runSteps_noFire_callbackCalls (v : Int) (t : Nat)
    (cs : List (String × TargetOutcome)) (s : BatchState)
    (h : s.numValidated + cs.length < t) :
    (runSteps v t cs s).callbackCalls = s.callbackCalls := by
  induction cs generalizing s with
  | nil => simp [runSteps]
  | cons c cs ih =>
      rw [runSteps_cons]
      have hne : (routeOutcome v c.1 c.2 s).numValidated + 1 ≠ t := by
        rw [routeOutcome_numValidated]
        simp only [List.length_cons] at h
        omega
      have hstep : onResult v t c.1 c.2 s =
          { routeOutcome v c.1 c.2 s with
              numValidated := (routeOutcome v c.1 c.2 s).numValidated + 1 } := by
        simp only [onResult]
        rw [finishStep_noFire _ _ _ hne]
      rw [hstep, ih]
      · rw [routeOutcome_callbackCalls]
      · simp only [routeOutcome_numValidated]
        simp only [List.length_cons] at h
        omega

theorem anyErrorIn_append (cs ds : List (String × TargetOutcome)) :
    anyErrorIn (cs ++ ds) = (anyErrorIn cs || anyErrorIn ds) := by
  simp [anyErrorIn]

theorem anyInvalidIn_append (cs ds : List (String × TargetOutcome)) :
    anyInvalidIn (cs ++ ds) = (anyInvalidIn cs || anyInvalidIn ds) := by
  simp [anyInvalidIn]

theorem validateAll_concat_callbackCalls (v : Int)
    (L : List (String × TargetOutcome)) (b : String × TargetOutcome) :
    (validateAll v (L ++ [b]).length (L ++ [b])).callbackCalls =
      [(none,
        if anyErrorIn (L ++ [b]) then 2
        else if anyInvalidIn (L ++ [b]) then 1 else 0)] := by
  have hlen : (L ++ [b]).length = L.length + 1 := by simp
  rw [hlen]
  have hsplit : validateAll v (L.length + 1) (L ++ [b]) =
      onResult v (L.length + 1) b.1 b.2
        (runSteps v (L.length + 1) L initialBatchState) := by
    simp [validateAll, runSteps_append, runSteps]
  rw [hsplit]
  set s1 := runSteps v (L.length + 1) L initialBatchState with hs1
  have hnum : s1.numValidated = L.length := by
    rw [hs1, runSteps_numValidated]
    simp [initialBatchState]
  have hcb : s1.callbackCalls = [] := by
    rw [hs1, runSteps_noFire_callbackCalls]
    · rfl
    · simp [initialBatchState]
  have herr : s1.hadError = anyErrorIn L := by
    rw [hs1, runSteps_hadError]
    simp [initialBatchState]
  have hinv : s1.hadInvalid = anyInvalidIn L := by
    rw [hs1, runSteps_hadInvalid]
    simp [initialBatchState]
  simp only [onResult]
  rw [finishStep_fire_callbackCalls]
  · rw [routeOutcome_callbackCalls, hcb, routeOutcome_hadError,
      routeOutcome_hadInvalid, herr, hinv, anyErrorIn_append, anyInvalidIn_append]
    simp only [anyErrorIn, anyInvalidIn, List.any_cons, List.any_nil, Bool.or_false,
      List.nil_append]
  · rw [routeOutcome_numValidated, hnum]

theorem runSteps_clean (v : Int) (t : Nat) (cs : List (String × TargetOutcome))
    (s : BatchState)
    (hclean : ∀ c ∈ cs, isErrorOutcome c.2 = false ∧ isInvalidOutcome c.2 = false)
    (h : s.numValidated + cs.length < t) :
    runSteps v t cs s = { s with numValidated := s.numValidated + cs.length } := by
  induction cs generalizing s with
  | nil => simp [runSteps]
  | cons c cs ih =>
      rw [runSteps_cons]
      have hc := hclean c (List.mem_cons_self c cs)
      have hroute : routeOutcome v c.1 c.2 s = s :=
        routeOutcome_clean v c.1 c.2 s hc.1 hc.2
      have hne : s.numValidated + 1 ≠ t := by
        simp only [List.length_cons] at h
        omega
      have hstep : onResult v t c.1 c.2 s = { s with numValidated := s.numValidated + 1 } := by
        simp only [onResult, hroute]
        exact finishStep_noFire v t s hne
      rw [hstep, ih]
      · simp only [List.length_cons]
        congr 1
        omega
      · intro d hd
        exact hclean d (List.mem_cons_of_mem c hd)
      · simp only [List.length_cons] at h
        simp only []
        omega

/-- C1: the exit code delivered to the completion callback of `validateAll`
is 2 when at least one target errored, else 1 when at least one target had
a non-empty diagnostic message list, else 0 — and for a batch containing
both an errored and an invalid target, the code is 2 (error strictly
dominates invalid), regardless of the order in which targets complete. -/
theorem validateAll_exit_code (v : Int) (cs : List (String × TargetOutcome))
    (h : cs ≠ []) :
    (validateAll v cs.length cs).callbackCalls =
      [(none, if anyErrorIn cs then 2 else if anyInvalidIn cs then 1 else 0)]
    ∧ (anyErrorIn cs = true → anyInvalidIn cs = true →
        (validateAll v cs.length cs).callbackCalls = [(none, 2)]) := by
  rcases List.eq_nil_or_concat cs with hnil | ⟨L, b, hcat⟩
  · exact absurd hnil h
  · subst hcat
    rw [List.concat_eq_append]
    refine ⟨validateAll_concat_callbackCalls v L b, ?_⟩
    intro he _
    rw [validateAll_concat_callbackCalls v L b, if_pos he]

/-- Witness for C1 at a concrete batch mixing one transport error and one
invalid-content result: the exit code is 2. -/
theorem validateAll_exit_code_witness :
    ([(("bad.yaml" : String), TargetOutcome.error ⟨"Error: ENOENT", "trace"⟩),
      (("inv.yaml" : String), TargetOutcome.success ⟨some ["oops"], none⟩)] ≠
        ([] : List (String × TargetOutcome)))
    ∧ (validateAll 0
        [(("bad.yaml" : String), TargetOutcome.error ⟨"Error: ENOENT", "trace"⟩),
         (("inv.yaml" : String), TargetOutcome.success ⟨some ["oops"], none⟩)].length
        [(("bad.yaml" : String), TargetOutcome.error ⟨"Error: ENOENT", "trace"⟩),
         (("inv.yaml" : String), TargetOutcome.success ⟨some ["oops"], none⟩)]).callbackCalls =
      [(none, 2)] := by
  refine ⟨by simp, ?_⟩
  exact (validateAll_exit_code 0 _ (by simp)).2 (by decide) (by decide)

/-- C3: for a batch in which every target succeeds with zero diagnostic
messages, the exit code is 0, the single confirmation line
`"All OpenAPI/Swagger specs are valid.\n"` is written to the error (status)
stream iff `verbosity >= 0`, nothing is written to the output stream, and
nothing reaches the status stream before the Nth completion among N
targets, whatever the completion order. -/
theorem validateAll_all_valid (v : Int) (cs : List (String × TargetOutcome))
    (h : cs ≠ [])
    (hclean : ∀ c ∈ cs, isErrorOutcome c.2 = false ∧ isInvalidOutcome c.2 = false) :
    (validateAll v cs.length cs).callbackCalls = [(none, 0)]
    ∧ (validateAll v cs.length cs).errWrites =
        (if 0 ≤ v then ["All OpenAPI/Swagger specs are valid.\n"] else [])
    ∧ (validateAll v cs.length cs).outWrites = []
    ∧ (∀ k, k < cs.length →
        (validateAll v cs.length (cs.take k)).errWrites = []
        ∧ (validateAll v cs.length (cs.take k)).outWrites = []) := by
  rcases List.eq_nil_or_concat cs with hnil | ⟨L, b, hcat⟩
  · exact absurd hnil h
  subst hcat
  rw [List.concat_eq_append] at hclean ⊢
  have hlen : (L ++ [b]).length = L.length + 1 := by simp
  have hcleanL : ∀ c ∈ L, isErrorOutcome c.2 = false ∧ isInvalidOutcome c.2 = false := by
    intro c hc
    exact hclean c (List.mem_append_left _ hc)
  have hcleanb := hclean b (List.mem_append_right _ (List.mem_singleton.mpr rfl))
  have hprefix : ∀ m : Nat, m ≤ L.length →
      runSteps v (L.length + 1) (L.take m) initialBatchState =
        { initialBatchState with numValidated := m } := by
    intro m hm
    have hlen_take : (L.take m).length = m := by
      rw [List.length_take]
      exact Nat.min_eq_left hm
    have hlt : initialBatchState.numValidated + (L.take m).length < L.length + 1 := by
      rw [hlen_take]
      change 0 + m < L.length + 1
      omega
    rw [runSteps_clean v (L.length + 1) (L.take m) initialBatchState
      (fun c hc => hcleanL c (List.take_subset m L hc)) hlt, hlen_take]
    simp [initialBatchState]
  have hs1 : runSteps v (L.length + 1) L initialBatchState =
      { initialBatchState with numValidated := L.length } := by
    have := hprefix L.length (Nat.le_refl _)
    rwa [List.take_length] at this
  have hsplit : validateAll v (L.length + 1) (L ++ [b]) =
      onResult v (L.length + 1) b.1 b.2
        { initialBatchState with numValidated := L.length } := by
    simp only [validateAll, runSteps_append, runSteps_nil, hs1]
    rfl
  rw [hlen, hsplit]
  simp only [onResult,
    routeOutcome_clean v b.1 b.2 _ hcleanb.1 hcleanb.2]
  constructor
  · rw [finishStep_fire_callbackCalls _ _ _ (by simp [initialBatchState])]
    simp [initialBatchState]
  constructor
  · rw [finishStep_fire_errWrites _ _ _ (by simp [initialBatchState])]
    by_cases hv : 0 ≤ v <;> simp [initialBatchState, hv]
  constructor
  · rw [finishStep_fire_outWrites _ _ _ (by simp [initialBatchState])]
    simp [initialBatchState]
  · intro k hk
    have hk2 : k ≤ L.length := by omega
    have htake : (L ++ [b]).take k = L.take k := by
      rw [List.take_append_of_le_length hk2]
    rw [htake]
    have := hprefix k hk2
    simp only [validateAll, this]
    constructor <;> rfl

/-- Witness for C3 at a concrete two-target all-clean batch with
verbosity 0. -/
theorem validateAll_all_valid_witness :
    ([(("a.json" : String), TargetOutcome.success ⟨none, none⟩),
      (("b.yaml" : String), TargetOutcome.success ⟨some [], some []⟩)] ≠
        ([] : List (String × TargetOutcome)))
    ∧ (∀ c ∈ [(("a.json" : String), TargetOutcome.success ⟨none, none⟩),
               (("b.yaml" : String), TargetOutcome.success ⟨some [], some []⟩)],
        isErrorOutcome c.2 = false ∧ isInvalidOutcome c.2 = false)
    ∧ ((validateAll 0
          [(("a.json" : String), TargetOutcome.success ⟨none, none⟩),
           (("b.yaml" : String), TargetOutcome.success ⟨some [], some []⟩)].length
          [(("a.json" : String), TargetOutcome.success ⟨none, none⟩),
           (("b.yaml" : String), TargetOutcome.success ⟨some [], some []⟩)]).callbackCalls =
        [(none, 0)]
      ∧ (validateAll 0
          [(("a.json" : String), TargetOutcome.success ⟨none, none⟩),
           (("b.yaml" : String), TargetOutcome.success ⟨some [], some []⟩)].length
          [(("a.json" : String), TargetOutcome.success ⟨none, none⟩),
           (("b.yaml" : String), TargetOutcome.success ⟨some [], some []⟩)]).errWrites =
        (if (0 : Int) ≤ 0 then ["All OpenAPI/Swagger specs are valid.\n"] else [])) := by
  refine ⟨by simp, by decide, ?_, ?_⟩
  · exact (validateAll_all_valid 0 _ (by simp) (by decide)).1
  · exact (validateAll_all_valid 0 _ (by simp) (by decide)).2.1

/-- C9: over a non-empty batch, `validateAll` invokes its completion
callback exactly once, always with a null error and an exit code at most 2,
and only at the completion whose count equals the number of targets; and
the `hadError` / `hadInvalid` aggregation flags are monotone — once set
after some prefix of completions they remain set after any further
completions. -/
theorem validateAll_callback_invariants (v : Int)
    (cs pre ext : List (String × TargetOutcome)) (t : Nat) (h : cs ≠ []) :
    (validateAll v cs.length cs).callbackCalls.length = 1
    ∧ (∃ code : Nat,
        (validateAll v cs.length cs).callbackCalls = [(none, code)] ∧ code ≤ 2)
    ∧ (∀ k, k < cs.length → (validateAll v cs.length (cs.take k)).callbackCalls = [])
    ∧ ((validateAll v t pre).hadError = true →
        (validateAll v t (pre ++ ext)).hadError = true)
    ∧ ((validateAll v t pre).hadInvalid = true →
        (validateAll v t (pre ++ ext)).hadInvalid = true) := by
  have hmain : (validateAll v cs.length cs).callbackCalls =
      [(none, if anyErrorIn cs then 2 else if anyInvalidIn cs then 1 else 0)] := by
    rcases List.eq_nil_or_concat cs with hnil | ⟨L, b, hcat⟩
    · exact absurd hnil h
    · subst hcat
      rw [List.concat_eq_append]
      exact validateAll_concat_callbackCalls v L b
  refine ⟨by rw [hmain]; rfl, ?_, ?_, ?_, ?_⟩
  · refine ⟨if anyErrorIn cs then 2 else if anyInvalidIn cs then 1 else 0, hmain, ?_⟩
    split
    · omega
    · split <;> omega
  · intro k hk
    have hk2 : k ≤ cs.length := Nat.le_of_lt hk
    have hlen_take : (cs.take k).length = k := by
      rw [List.length_take]
      exact Nat.min_eq_left hk2
    have hlt : initialBatchState.numValidated + (cs.take k).length < cs.length := by
      rw [hlen_take]
      change 0 + k < cs.length
      omega
    rw [validateAll, runSteps_noFire_callbackCalls v cs.length (cs.take k)
      initialBatchState hlt]
    rfl
  · intro hpre
    rw [validateAll, runSteps_hadError] at hpre ⊢
    rw [anyErrorIn_append]
    simp only [initialBatchState] at hpre ⊢
    simp only [Bool.false_or] at hpre ⊢
    rw [hpre]
    rfl
  · intro hpre
    rw [validateAll, runSteps_hadInvalid] at hpre ⊢
    rw [anyInvalidIn_append]
    simp only [initialBatchState] at hpre ⊢
    simp only [Bool.false_or] at hpre ⊢
    rw [hpre]
    rfl

/-- Witness for C9 at a concrete one-target erroring batch, with a
one-element prefix extended by one more completion. -/
theorem validateAll_callback_invariants_witness :
    ([(("x" : String), TargetOutcome.error ⟨"Error: boom", "trace"⟩)] ≠
        ([] : List (String × TargetOutcome)))
    ∧ ((validateAll (-1)
          [(("x" : String), TargetOutcome.error ⟨"Error: boom", "trace"⟩)].length
          [(("x" : String), TargetOutcome.error ⟨"Error: boom", "trace"⟩)]).callbackCalls.length = 1
      ∧ (∃ code : Nat,
          (validateAll (-1)
            [(("x" : String), TargetOutcome.error ⟨"Error: boom", "trace"⟩)].length
            [(("x" : String), TargetOutcome.error ⟨"Error: boom", "trace"⟩)]).callbackCalls =
            [(none, code)] ∧ code ≤ 2)
      ∧ (∀ k, k < [(("x" : String), TargetOutcome.error ⟨"Error: boom", "trace"⟩)].length →
          (validateAll (-1)
            [(("x" : String), TargetOutcome.error ⟨"Error: boom", "trace"⟩)].length
            ([(("x" : String), TargetOutcome.error ⟨"Error: boom", "trace"⟩)].take k)).callbackCalls = [])
      ∧ ((validateAll (-1) 2
            [(("x" : String), TargetOutcome.error ⟨"Error: boom", "trace"⟩)]).hadError = true →
          (validateAll (-1) 2
            ([(("x" : String), TargetOutcome.error ⟨"Error: boom", "trace"⟩)] ++
              [(("y" : String), TargetOutcome.success ⟨none, none⟩)])).hadError = true)
      ∧ ((validateAll (-1) 2
            [(("x" : String), TargetOutcome.error ⟨"Error: boom", "trace"⟩)]).hadInvalid = true →
          (validateAll (-1) 2
            ([(("x" : String), TargetOutcome.error ⟨"Error: boom", "trace"⟩)] ++
              [(("y" : String), TargetOutcome.success ⟨none, none⟩)])).hadInvalid = true)) := by
  refine ⟨by simp, ?_⟩
  exact validateAll_callback_invariants (-1)
    [(("x" : String), TargetOutcome.error ⟨"Error: boom", "trace"⟩)]
    [(("x" : String), TargetOutcome.error ⟨"Error: boom", "trace"⟩)]
    [(("y" : String), TargetOutcome.success ⟨none, none⟩)] 2 (by simp)

/-- C10: invoked with an empty target list, `validateAll` never invokes its
completion callback, writes nothing to either stream, and dispatches no
validation — the batch never reaches a terminal state. -/
theorem validateAll_empty (v : Int) :
    validateAll v 0 [] = initialBatchState
    ∧ (validateAll v 0 []).callbackCalls = []
    ∧ (validateAll v 0 []).errWrites = []
    ∧ (validateAll v 0 []).outWrites = []
    ∧ dispatchAll [] = [] :=
  ⟨rfl, rfl, rfl, rfl, rfl⟩

theorem jsSetDedup_go_mem (l : List String) :
    ∀ (acc : List String) (x : String),
      x ∈ l.foldl (fun acc y => if y ∈ acc then acc else acc ++ [y]) acc ↔
        x ∈ acc ∨ x ∈ l := by
  induction l with
  | nil => intro acc x; simp
  | cons y ys ih =>
      intro acc x
      simp only [List.foldl_cons]
      by_cases hy : y ∈ acc
      · rw [if_pos hy, ih]
        constructor
        · rintro (hx | hx)
          · exact Or.inl hx
          · exact Or.inr (List.mem_cons_of_mem y hx)
        · rintro (hx | hx)
          · exact Or.inl hx
          · rcases List.mem_cons.mp hx with hx | hx
            · exact Or.inl (hx ▸ hy)
            · exact Or.inr hx
      · rw [if_neg hy, ih]
        simp only [List.mem_append, List.mem_singleton, List.mem_cons]
        tauto

theorem jsSetDedup_go_nodup (l : List String) :
    ∀ acc : List String, acc.Nodup →
      (l.foldl (fun acc y => if y ∈ acc then acc else acc ++ [y]) acc).Nodup := by
  induction l with
  | nil => intro acc hacc; exact hacc
  | cons y ys ih =>
      intro acc hacc
      simp only [List.foldl_cons]
      by_cases hy : y ∈ acc
      · rw [if_pos hy]
        exact ih acc hacc
      · rw [if_neg hy]
        refine ih (acc ++ [y]) ?_
        simp [List.nodup_append, hacc, hy]

theorem jsSetDedup_mem (l : List String) (x : String) :
    x ∈ jsSetDedup l ↔ x ∈ l := by
  rw [jsSetDedup, jsSetDedup_go_mem]
  simp

theorem jsSetDedup_nodup (l : List String) : (jsSetDedup l).Nodup :=
  jsSetDedup_go_nodup l [] List.nodup_nil

/-- C2: for any non-empty argument list (in particular one containing
duplicate literal strings, `'-'` included), the spec-path list `validateAll`
receives contains exactly the distinct literal strings of the input
(compared by exact string equality), each occurring exactly once, and
exactly one validation is dispatched per distinct target, in order. -/
theorem resolveSpecPaths_dedup (args : List String) (h : args ≠ []) :
    (resolveSpecPaths args).Nodup
    ∧ (∀ x, x ∈ resolveSpecPaths args ↔ x ∈ args)
    ∧ (∀ x ∈ args, (resolveSpecPaths args).count x = 1)
    ∧ dispatchAll (resolveSpecPaths args) = (resolveSpecPaths args).map dispatchOf := by
  have hlen : args.length ≠ 0 := fun hc => h (List.eq_nil_of_length_eq_zero hc)
  by_cases h1 : 1 < args.length
  · have hres : resolveSpecPaths args = jsSetDedup args := by
      rw [resolveSpecPaths, if_neg hlen, if_pos h1]
    rw [hres]
    refine ⟨jsSetDedup_nodup args, fun x => jsSetDedup_mem args x, ?_, rfl⟩
    intro x hx
    exact List.count_eq_one_of_mem (jsSetDedup_nodup args)
      ((jsSetDedup_mem args x).mpr hx)
  · have hone : args.length = 1 := by omega
    obtain ⟨a, ha⟩ := List.length_eq_one.mp hone
    have hres : resolveSpecPaths args = args := by
      rw [resolveSpecPaths, if_neg hlen, if_neg h1]
    subst ha
    rw [hres]
    refine ⟨by simp, fun x => Iff.rfl, ?_, rfl⟩
    intro x hx
    rw [List.mem_singleton.mp hx]
    simp

/-- Witness for C2 at a concrete argument list with duplicate paths and a
duplicate stdin sentinel. -/
theorem resolveSpecPaths_dedup_witness :
    (["a.yaml", "-", "a.yaml", "-", "b.yaml"] ≠ ([] : List String))
    ∧ ((resolveSpecPaths ["a.yaml", "-", "a.yaml", "-", "b.yaml"]).Nodup
      ∧ (∀ x, x ∈ resolveSpecPaths ["a.yaml", "-", "a.yaml", "-", "b.yaml"] ↔
          x ∈ ["a.yaml", "-", "a.yaml", "-", "b.yaml"])
      ∧ (∀ x ∈ ["a.yaml", "-", "a.yaml", "-", "b.yaml"],
          (resolveSpecPaths ["a.yaml", "-", "a.yaml", "-", "b.yaml"]).count x = 1)
      ∧ dispatchAll (resolveSpecPaths ["a.yaml", "-", "a.yaml", "-", "b.yaml"]) =
          (resolveSpecPaths ["a.yaml", "-", "a.yaml", "-", "b.yaml"]).map dispatchOf) :=
  ⟨by simp, resolveSpecPaths_dedup ["a.yaml", "-", "a.yaml", "-", "b.yaml"] (by simp)⟩

/-- C4: for every HTTP response with status at least 300, `requestJson`
produces an error whose message is `HTTP <status>`, with `: <statusMessage>`
appended when the status message is present and `: <location>` appended
when the Location response header is present, and whose `body` property is
the parsed JSON response body when parseable, else the raw response
bytes. -/
theorem requestJson_http_error {α : Type} (jsonParse : String → Except String α)
    (res : HttpResponse) (h : 300 ≤ res.statusCode) :
    requestJsonOnEnd jsonParse res = .err
      { message := "HTTP " ++ toString res.statusCode
          ++ (if res.statusMessage ≠ "" then ": " ++ res.statusMessage else "")
          ++ (if res.location ≠ "" then ": " ++ res.location else "")
        statusCode := res.statusCode
        statusMessage := res.statusMessage
        location := res.location
        body := match jsonParse res.body with
                | .ok j => .parsed j
                | .error _ => .raw res.body } := by
  simp only [requestJsonOnEnd]
  rw [if_pos h]
  by_cases hsm : res.statusMessage ≠ "" <;> by_cases hloc : res.location ≠ "" <;>
    simp [hsm, hloc, String.append_assoc]

/-- Witness for C4: a concrete 404 response with a status message, no
Location header, and a body that fails JSON parsing. -/
theorem requestJson_http_error_witness :
    300 ≤ (HttpResponse.mk 404 "Not Found" "" "<html>oops</html>").statusCode
    ∧ requestJsonOnEnd (fun _ => (Except.error "Unexpected token" : Except String Nat))
        (HttpResponse.mk 404 "Not Found" "" "<html>oops</html>") = .err
        { message := "HTTP " ++ toString
              (HttpResponse.mk 404 "Not Found" "" "<html>oops</html>").statusCode
            ++ (if (HttpResponse.mk 404 "Not Found" "" "<html>oops</html>").statusMessage ≠ ""
                then ": " ++ (HttpResponse.mk 404 "Not Found" "" "<html>oops</html>").statusMessage
                else "")
            ++ (if (HttpResponse.mk 404 "Not Found" "" "<html>oops</html>").location ≠ ""
                then ": " ++ (HttpResponse.mk 404 "Not Found" "" "<html>oops</html>").location
                else "")
          statusCode := (HttpResponse.mk 404 "Not Found" "" "<html>oops</html>").statusCode
          statusMessage := (HttpResponse.mk 404 "Not Found" "" "<html>oops</html>").statusMessage
          location := (HttpResponse.mk 404 "Not Found" "" "<html>oops</html>").location
          body := match (fun _ => (Except.error "Unexpected token" : Except String Nat))
              (HttpResponse.mk 404 "Not Found" "" "<html>oops</html>").body with
            | .ok j => .parsed j
            | .error _ => .raw (HttpResponse.mk 404 "Not Found" "" "<html>oops</html>").body } :=
  ⟨by decide,
    requestJson_http_error (fun _ => (Except.error "Unexpected token" : Except String Nat))
      (HttpResponse.mk 404 "Not Found" "" "<html>oops</html>") (by decide)⟩

theorem callbackOnceStep_latched {α : Type} (l : List α) (acc : List α) :
    l.foldl callbackOnceStep (true, acc) = (true, acc) := by
  induction l with
  | nil => rfl
  | cons a rest ih => simp [callbackOnceStep, ih]

/-- C5: every resolution-attempt sequence routed through the `callbackOnce`
latch of `validate` invokes the underlying callback at most once — exactly
the first attempt is observed (even when a transport double-fires, e.g. a
body-stream error followed by a response or error event), and every later
attempt is silently dropped. -/
theorem callbackOnce_at_most_once {α : Type} (attempts : List α) :
    callbackOnceRun attempts = attempts.take 1
    ∧ (callbackOnceRun attempts).length ≤ 1 := by
  have hrun : callbackOnceRun attempts = attempts.take 1 := by
    cases attempts with
    | nil => rfl
    | cons a rest =>
        simp only [callbackOnceRun, List.foldl_cons, callbackOnceStep]
        rw [if_neg (by simp)]
        simp [callbackOnceStep_latched]
  refine ⟨hrun, ?_⟩
  rw [hrun]
  cases attempts <;> simp

/-- C6: for a document with a file path, a caller-declared Content-Type
header (matched case-insensitively) skips resolution entirely and the
caller's headers pass through unchanged; otherwise a path ending in
`.json` (case-insensitive) yields `application/json`, a path ending in
`.yaml` or `.yml` (case-insensitive) yields the YAML content type, and any
other extension falls through to content sniffing. -/
theorem contentType_resolution (jp : String → Bool) (v : Int)
    (headers : List (String × String)) (path content : String) :
    (hasContentTypeHeader headers = true →
      resolveSpecContent jp v headers (.stream path content) =
        { headers := headers, body := .stream path content, errWrites := [] })
    ∧ (hasContentTypeHeader headers = false → path ≠ "" →
        endsWithStr (jsToLower path) ".json" = true →
        resolveSpecContent jp v headers (.stream path content) =
          { headers := jsSetKey headers "Content-Type" JSON_CONTENT_TYPE
            body := .stream path content
            errWrites := [] })
    ∧ (hasContentTypeHeader headers = false → path ≠ "" →
        endsWithStr (jsToLower path) ".json" = false →
        (endsWithStr (jsToLower path) ".yaml" = true ∨
          endsWithStr (jsToLower path) ".yml" = true) →
        resolveSpecContent jp v headers (.stream path content) =
          { headers := jsSetKey headers "Content-Type" YAML_CONTENT_TYPE
            body := .stream path content
            errWrites := [] })
    ∧ (hasContentTypeHeader headers = false →
        endsWithStr (jsToLower path) ".json" = false →
        endsWithStr (jsToLower path) ".yaml" = false →
        endsWithStr (jsToLower path) ".yml" = false →
        resolveSpecContent jp v headers (.stream path content) =
          { headers := jsSetKey headers "Content-Type"
              (guessSpecDataContentType jp v content).1
            body := .data content
            errWrites := (if 1 ≤ v then [bufferDiagLine] else []) ++
              (guessSpecDataContentType jp v content).2 }) := by
  refine ⟨?_, ?_, ?_, ?_⟩
  · intro hct
    simp [resolveSpecContent, hct]
  · intro hct hpath hjson
    simp only [resolveSpecContent, hct, Bool.not_false, if_pos]
    simp only [guessSpecContentType, extContentType, hpath, ne_eq,
      not_false_iff, if_true, hjson, if_pos]
  · intro hct hpath hjson hyaml
    simp only [resolveSpecContent, hct, Bool.not_false, if_pos]
    have hy : (endsWithStr (jsToLower path) ".yaml" ||
        endsWithStr (jsToLower path) ".yml") = true := by
      rcases hyaml with hy | hy <;> simp [hy]
    simp only [guessSpecContentType, extContentType, hpath, ne_eq,
      not_false_iff, if_true, hjson, if_false, Bool.false_eq_true, hy, if_pos]
  · intro hct hjson hyaml hyml
    simp only [resolveSpecContent, hct, Bool.not_false, if_pos]
    have hext : (if path ≠ "" then extContentType path else none) = none := by
      split
      · simp [extContentType, hjson, hyaml, hyml]
      · rfl
    simp only [guessSpecContentType, hext]

/-- Witness for C6: concrete instances for each branch — a declared
`content-type` header, paths `spec.JSON`, `spec.YML`, `spec.txt`. -/
theorem contentType_resolution_witness :
    (hasContentTypeHeader [("Content-TYPE", "text/plain")] = true
      ∧ resolveSpecContent (fun _ => true) 0 [("Content-TYPE", "text/plain")]
          (.stream "spec.txt" "{}") =
        { headers := [("Content-TYPE", "text/plain")]
          body := .stream "spec.txt" "{}"
          errWrites := [] })
    ∧ (hasContentTypeHeader [] = false
      ∧ endsWithStr (jsToLower "spec.JSON") ".json" = true
      ∧ resolveSpecContent (fun _ => true) 0 [] (.stream "spec.JSON" "{}") =
        { headers := jsSetKey [] "Content-Type" JSON_CONTENT_TYPE
          body := .stream "spec.JSON" "{}"
          errWrites := [] })
    ∧ (endsWithStr (jsToLower "spec.YML") ".json" = false
      ∧ endsWithStr (jsToLower "spec.YML") ".yml" = true
      ∧ resolveSpecContent (fun _ => true) 0 [] (.stream "spec.YML" "a: b") =
        { headers := jsSetKey [] "Content-Type" YAML_CONTENT_TYPE
          body := .stream "spec.YML" "a: b"
          errWrites := [] })
    ∧ (endsWithStr (jsToLower "spec.txt") ".json" = false
      ∧ resolveSpecContent (fun _ => true) 0 [] (.stream "spec.txt" "{}") =
        { headers := jsSetKey [] "Content-Type"
            (guessSpecDataContentType (fun _ => true) 0 "{}").1
          body := .data "{}"
          errWrites := (if 1 ≤ (0 : Int) then [bufferDiagLine] else []) ++
            (guessSpecDataContentType (fun _ => true) 0 "{}").2 }) := by
  refine ⟨⟨by decide, ?_⟩, ⟨by decide, by decide, ?_⟩, ⟨by decide, by decide, ?_⟩,
    ⟨by decide, ?_⟩⟩
  · exact (contentType_resolution (fun _ => true) 0 [("Content-TYPE", "text/plain")]
      "spec.txt" "{}").1 (by decide)
  · exact (contentType_resolution (fun _ => true) 0 [] "spec.JSON" "{}").2.1
      (by decide) (by decide) (by decide)
  · exact (contentType_resolution (fun _ => true) 0 [] "spec.YML" "a: b").2.2.1
      (by decide) (by decide) (by decide) (Or.inr (by decide))
  · exact (contentType_resolution (fun _ => true) 0 [] "spec.txt" "{}").2.2.2
      (by decide) (by decide) (by decide) (by decide)

/-- C7: for a document with an unrecognized extension (or no path) whose
content fails JSON parsing, content-type resolution falls back to the YAML
content type without error, and the sniffing diagnostic line
("Unable to parse spec content as JSON.  Assuming YAML.") is written to the
status stream exactly once when `verbosity >= 1` and never otherwise —
both for stream documents and for in-memory documents. -/
theorem sniff_fallback_yaml (jp : String → Bool) (v : Int) (path content : String)
    (hj : jp content = false)
    (hjson : endsWithStr (jsToLower path) ".json" = false)
    (hyaml : endsWithStr (jsToLower path) ".yaml" = false)
    (hyml : endsWithStr (jsToLower path) ".yml" = false) :
    (guessSpecContentType jp v (.stream path content)).contentType = YAML_CONTENT_TYPE
    ∧ ((guessSpecContentType jp v (.stream path content)).errWrites.count sniffDiagLine =
        if 1 ≤ v then 1 else 0)
    ∧ (guessSpecContentType jp v (.data content)).contentType = YAML_CONTENT_TYPE
    ∧ ((guessSpecContentType jp v (.data content)).errWrites.count sniffDiagLine =
        if 1 ≤ v then 1 else 0) := by
  have hext : (if path ≠ "" then extContentType path else none) = none := by
    split
    · simp [extContentType, hjson, hyaml, hyml]
    · rfl
  have hdiff : (bufferDiagLine == sniffDiagLine) = false := by decide
  refine ⟨?_, ?_, ?_, ?_⟩
  · simp [guessSpecContentType, hext, guessSpecDataContentType, hj]
  · simp only [guessSpecContentType, hext, guessSpecDataContentType, hj,
      Bool.false_eq_true, if_false]
    by_cases hv : 1 ≤ v <;>
      simp [hv, List.count_cons, List.count_nil, hdiff, List.count_append]
  · simp [guessSpecContentType, guessSpecDataContentType, hj]
  · simp only [guessSpecContentType, guessSpecDataContentType, hj,
      Bool.false_eq_true, if_false]
    by_cases hv : 1 ≤ v <;> simp [hv, List.count_cons, List.count_nil]

/-- Witness for C7: a `.txt` path with non-JSON content at verbosity 1. -/
theorem sniff_fallback_yaml_witness :
    ((fun c => c = "{}") "a: b" = false
      ∧ endsWithStr (jsToLower "spec.txt") ".json" = false
      ∧ endsWithStr (jsToLower "spec.txt") ".yaml" = false
      ∧ endsWithStr (jsToLower "spec.txt") ".yml" = false)
    ∧ ((guessSpecContentType (fun c => c = "{}") 1 (.stream "spec.txt" "a: b")).contentType =
        YAML_CONTENT_TYPE
      ∧ ((guessSpecContentType (fun c => c = "{}") 1
            (.stream "spec.txt" "a: b")).errWrites.count sniffDiagLine =
          if 1 ≤ (1 : Int) then 1 else 0)
      ∧ (guessSpecContentType (fun c => c = "{}") 1 (.data "a: b")).contentType =
        YAML_CONTENT_TYPE
      ∧ ((guessSpecContentType (fun c => c = "{}") 1
            (.data "a: b")).errWrites.count sniffDiagLine =
          if 1 ≤ (1 : Int) then 1 else 0)) :=
  ⟨⟨by decide, by decide, by decide, by decide⟩,
    sniff_fallback_yaml (fun c => c = "{}") 1 "spec.txt" "a: b"
      (by decide) (by decide) (by decide) (by decide)⟩

theorem addHeaderEntry_fold_spec (xs : List (String × String)) :
    ∀ (seen : List String) (acc : List (String × String)),
      (∀ l, l ∈ seen ↔ (lookupCI acc l).isSome = true) →
      (∀ l, lookupCI (xs.foldl addHeaderEntry (seen, acc)).2 l =
          ((lookupCI acc l).or (lookupCI xs l)))
      ∧ (∀ l, l ∈ (xs.foldl addHeaderEntry (seen, acc)).1 ↔
          (lookupCI (xs.foldl addHeaderEntry (seen, acc)).2 l).isSome = true) := by
  induction xs with
  | nil =>
      intro seen acc hinv
      exact ⟨fun l => by simp [lookupCI], hinv⟩
  | cons kv xs ih =>
      intro seen acc hinv
      simp only [List.foldl_cons]
      by_cases hkv : jsToLower kv.1 ∈ seen
      · have hstep : addHeaderEntry (seen, acc) kv = (seen, acc) := by
          simp [addHeaderEntry, hkv]
        rw [hstep]
        obtain ⟨hlook, hinv2⟩ := ih seen acc hinv
        refine ⟨?_, hinv2⟩
        intro l
        rw [hlook l]
        by_cases hl : jsToLower kv.1 = l
        · have hsome : (lookupCI acc l).isSome = true := (hinv l).mp (hl ▸ hkv)
          obtain ⟨w, hw⟩ := Option.isSome_iff_exists.mp hsome
          rw [hw, Option.or_some, Option.or_some]
        · have hcons : lookupCI (kv :: xs) l = lookupCI xs l := by
            simp only [lookupCI]
            exact List.find?_cons_of_neg _ (by simp [hl])
          rw [hcons]
      · have hstep : addHeaderEntry (seen, acc) kv =
            (seen ++ [jsToLower kv.1], acc ++ [kv]) := by
          simp [addHeaderEntry, hkv]
        rw [hstep]
        have hsingle : ∀ l, lookupCI [kv] l =
            if jsToLower kv.1 = l then some kv else none := by
          intro l
          simp only [lookupCI, List.find?_singleton]
          split <;> simp_all
        have hinv2 : ∀ l, l ∈ seen ++ [jsToLower kv.1] ↔
            (lookupCI (acc ++ [kv]) l).isSome = true := by
          intro l
          rw [List.mem_append, List.mem_singleton]
          have happ : lookupCI (acc ++ [kv]) l = (lookupCI acc l).or (lookupCI [kv] l) := by
            simp only [lookupCI]
            exact List.find?_append
          rw [happ, Option.isSome_or, hinv l, hsingle l]
          constructor
          · rintro (hs | hs)
            · simp [hs]
            · rw [if_pos hs.symm]
              simp
          · intro hs
            rcases Bool.or_eq_true_iff.mp hs with hs | hs
            · exact Or.inl hs
            · by_cases hl : jsToLower kv.1 = l
              · exact Or.inr hl.symm
              · rw [if_neg hl] at hs
                simp at hs
        obtain ⟨hlook, hinv3⟩ := ih (seen ++ [jsToLower kv.1]) (acc ++ [kv]) hinv2
        refine ⟨?_, hinv3⟩
        intro l
        rw [hlook l]
        have happ : lookupCI (acc ++ [kv]) l = (lookupCI acc l).or (lookupCI [kv] l) := by
          simp only [lookupCI]
          exact List.find?_append
        have hcons : lookupCI (kv :: xs) l = (lookupCI [kv] l).or (lookupCI xs l) := by
          have : kv :: xs = [kv] ++ xs := rfl
          rw [this]
          simp only [lookupCI]
          exact List.find?_append
        rw [happ, hcons, Option.or_assoc]

theorem combineHeaders_lookup (args : List (List (String × String))) (l : String) :
    lookupCI (combineHeaders args) l = lookupCI (args.reverse).flatten l := by
  suffices h : ∀ (layers : List (List (String × String))) (seen : List String)
      (acc : List (String × String)),
      (∀ m, m ∈ seen ↔ (lookupCI acc m).isSome = true) →
      (∀ m, lookupCI
          (layers.foldl (fun st headers => headers.foldl addHeaderEntry st) (seen, acc)).2 m =
        ((lookupCI acc m).or (lookupCI layers.flatten m)))
      ∧ (∀ m, m ∈
          (layers.foldl (fun st headers => headers.foldl addHeaderEntry st) (seen, acc)).1 ↔
        (lookupCI
          (layers.foldl (fun st headers => headers.foldl addHeaderEntry st) (seen, acc)).2 m).isSome = true) by
    have h0 := (h args.reverse [] [] (by simp [lookupCI])).1 l
    rw [combineHeaders, h0]
    simp [lookupCI]
  intro layers
  induction layers with
  | nil =>
      intro seen acc hinv
      exact ⟨fun m => by simp [lookupCI], hinv⟩
  | cons h1 rest ih =>
      intro seen acc hinv
      simp only [List.foldl_cons]
      obtain ⟨hlook1, hinv1⟩ := addHeaderEntry_fold_spec h1 seen acc hinv
      obtain ⟨hlook2, hinv2⟩ := ih (h1.foldl addHeaderEntry (seen, acc)).1
        (h1.foldl addHeaderEntry (seen, acc)).2 hinv1
      refine ⟨?_, ?_⟩
      · intro m
        have happ : lookupCI (h1 ++ rest.flatten) m =
            (lookupCI h1 m).or (lookupCI rest.flatten m) := by
          simp only [lookupCI]
          exact List.find?_append
        simp only [List.flatten_cons, happ]
        rw [← Option.or_assoc, ← hlook1 m]
        exact hlook2 m
      · intro m
        exact hinv2 m

/-- C8: the merged outbound header map uses case-insensitive key identity —
a lookup by lowercase name returns the literal entry of the last-applied
layer that defines that name (`combineHeaders(defaults, caller)` lets the
caller win, and the per-target Content-Type assignment, which `validate`
only performs when no layer named Content-Type, wins over both) — and the
built-in defaults contribute `Accept: application/json` and the User-Agent
string when the caller does not override them. -/
theorem header_merge_policy (ua ct l : String) (d c hs : List (String × String))
    (hacc : lookupCI c "accept" = none)
    (huag : lookupCI c "user-agent" = none)
    (hct : lookupCI hs "content-type" = none) :
    lookupCI (combineHeaders [d, c]) l = ((lookupCI c l).or (lookupCI d l))
    ∧ lookupCI (combineHeaders [defaultHeaders ua, c]) "accept" =
        some ("Accept", JSON_CONTENT_TYPE)
    ∧ lookupCI (combineHeaders [defaultHeaders ua, c]) "user-agent" =
        some ("User-Agent", ua)
    ∧ lookupCI (jsSetKey hs "Content-Type" ct) "content-type" =
        some ("Content-Type", ct) := by
  have hpair : ∀ (d2 : List (String × String)) (m : String),
      lookupCI (combineHeaders [d2, c]) m = ((lookupCI c m).or (lookupCI d2 m)) := by
    intro d2 m
    rw [combineHeaders_lookup [d2, c] m]
    simp only [List.reverse_cons, List.reverse_nil, List.nil_append,
      List.singleton_append, List.flatten_cons, List.flatten_nil, List.append_nil]
    simp only [lookupCI]
    exact List.find?_append
  refine ⟨hpair d l, ?_, ?_, ?_⟩
  · rw [hpair (defaultHeaders ua) "accept", hacc, Option.none_or]
    simp only [lookupCI, defaultHeaders]
    exact List.find?_cons_of_pos _ (by decide)
  · rw [hpair (defaultHeaders ua) "user-agent", huag, Option.none_or]
    simp only [lookupCI, defaultHeaders]
    rw [List.find?_cons_of_neg _ (by decide)]
    exact List.find?_cons_of_pos _
      (show decide (jsToLower "User-Agent" = "user-agent") = true by decide)
  · have hnone := List.find?_eq_none.mp hct
    have hany : (hs.any fun kv => kv.1 = "Content-Type") = false := by
      rw [List.any_eq_false]
      intro kv hkv
      simp only [decide_eq_true_eq]
      intro heq
      have := hnone kv hkv
      simp only [decide_eq_true_eq] at this
      apply this
      rw [heq]
      decide
    rw [jsSetKey, if_neg (by simp [hany])]
    have happ : lookupCI (hs ++ [("Content-Type", ct)]) "content-type" =
        (lookupCI hs "content-type").or (lookupCI [("Content-Type", ct)] "content-type") := by
      simp only [lookupCI]
      exact List.find?_append
    rw [happ, hct, Option.none_or]
    simp only [lookupCI]
    exact List.find?_cons_of_pos _
      (show decide (jsToLower "Content-Type" = "content-type") = true by decide)

/-- Witness for C8: a caller layer overriding a default-free name, with the
built-in defaults and a per-target Content-Type applied to headers lacking
one. -/
theorem header_merge_policy_witness :
    (lookupCI [("X-Api-Key", "k")] "accept" = none
      ∧ lookupCI [("X-Api-Key", "k")] "user-agent" = none
      ∧ lookupCI [("Accept", "application/json")] "content-type" = none)
    ∧ (lookupCI (combineHeaders [[("x-api-key", "old")], [("X-Api-Key", "k")]]) "x-api-key" =
        ((lookupCI [("X-Api-Key", "k")] "x-api-key").or
          (lookupCI [("x-api-key", "old")] "x-api-key"))
      ∧ lookupCI (combineHeaders
          [defaultHeaders "swagger-spec-validator/5.0.0 Node.js/20.0.0",
           [("X-Api-Key", "k")]]) "accept" = some ("Accept", JSON_CONTENT_TYPE)
      ∧ lookupCI (combineHeaders
          [defaultHeaders "swagger-spec-validator/5.0.0 Node.js/20.0.0",
           [("X-Api-Key", "k")]]) "user-agent" =
        some ("User-Agent", "swagger-spec-validator/5.0.0 Node.js/20.0.0")
      ∧ lookupCI (jsSetKey [("Accept", "application/json")] "Content-Type"
          "application/yaml") "content-type" =
        some ("Content-Type", "application/yaml")) :=
  ⟨⟨by decide, by decide, by decide⟩,
    header_merge_policy "swagger-spec-validator/5.0.0 Node.js/20.0.0"
      "application/yaml" "x-api-key" [("x-api-key", "old")] [("X-Api-Key", "k")]
      [("Accept", "application/json")] (by decide) (by decide) (by decide)⟩
